import Mathlib

/-!
Verification development for the coldforge Campaign Engine
(`execution/send_campaign.py`) and Warmup Scheduler
(`execution/warmup_account.py`).

Strings are modelled as lists of characters (`Str`); Python
`datetime.now()` values are modelled as explicit `Nat` timestamps passed
to each operation; Python floats arising from `/` on metric counts are
modelled as rationals; file-system effects (the persisted JSON record per
entity) are modelled by passing the record value explicitly; a missing
file is an `Option`/`Except` case.
-/

abbrev Str := List Char

/-- EmailTemplate dataclass: subject, body, delay_days (default 0). -/
structure EmailTemplate where
  subject : Str
  body : Str
  delay_days : Int := 0
deriving DecidableEq, Repr

/-- Lead dataclass: email, first_name, company_name, extra dict.
The Python `extra` is an (insertion-ordered) dict or `None`; it is
modelled as an association list, with `[]` standing for `None`
(iteration over both is vacuous, so behaviour coincides). -/
structure Lead where
  email : Str
  first_name : Str
  company_name : Str
  extra : List (Str × Str) := []
deriving DecidableEq, Repr

/-- Python `s.replace(p, v)`: replaces every non-overlapping occurrence
of `p` in `s` by `v`, scanning left to right; the inserted `v` is not
rescanned.  All call sites in `personalize` pass a nonempty pattern
(patterns have the shape two braces ++ key ++ two braces), so the
degenerate empty-pattern behaviour of Python is irrelevant and the
empty pattern is treated as matching nowhere. -/
def replaceGo (p v : Str) : Nat → Str → Str
  | _, [] => []
  | 0, s => s
  | fuel + 1, c :: rest =>
    if p ≠ [] ∧ p.isPrefixOf (c :: rest) then
      v ++ replaceGo p v fuel ((c :: rest).drop p.length)
    else
      c :: replaceGo p v fuel rest

def replaceL (p v s : Str) : Str := replaceGo p v s.length s

def strFirstName : Str := ("first_name").toList

def strCompanyName : Str := ("company_name").toList

def strEmail : Str := ("email").toList

/-- The literal placeholder text `f"{{{{{key}}}}}"`: two opening braces,
the key, two closing braces. -/
def patFor (key : Str) : Str := '{' :: '{' :: (key ++ ['}', '}'])

/-- Campaign.personalize: replaces the three typed placeholders in
order (first_name, company_name, email), then every extra-dict
placeholder in dict iteration order. -/
def personalize (template : Str) (lead : Lead) : Str :=
  let r1 := replaceL (patFor strFirstName) lead.first_name template
  let r2 := replaceL (patFor strCompanyName) lead.company_name r1
  let r3 := replaceL (patFor strEmail) lead.email r2
  lead.extra.foldl (fun acc kv => replaceL (patFor kv.1) kv.2 acc) r3

/-- Python `"{{" in s`: the two-character opening-marker string occurs
as a contiguous substring of `s`. -/
def hasUnresolved (s : Str) : Bool := decide (['{', '{'] <:+: s)

def msgNoLeads : Str := ("No leads loaded").toList

def msgNoSequence : Str := ("No emails in sequence").toList

def msgNoMailboxes : Str := ("No mailboxes configured").toList

/-- The f-string `f"Email {i+1} has unresolved variables"` (the argument
here is already the 1-based number). -/
def emailMsg (n : Nat) : Str :=
  ("Email ").toList ++ Nat.toDigits 10 n ++ (" has unresolved variables").toList

def strDraft : Str := ("draft").toList

def strActive : Str := ("active").toList

def strPaused : Str := ("paused").toList

/-- Campaign object state (the fields assigned in `Campaign.__init__`
and by the lifecycle methods; `started_at` is the attribute that is
absent until the first successful `start`, modelled as an `Option`). -/
structure Campaign where
  id : Str
  name : Str
  mailboxes : List Str
  daily_limit : Int
  sequence : List EmailTemplate
  status : Str
  created_at : Nat
  leads : List Lead
  started_at : Option Nat
deriving DecidableEq, Repr

def campaignIdBase : Str := ("campaign_").toList

/-- Campaign.__init__: id from the construction timestamp, status draft,
empty sequence, `started_at` attribute absent.  The optional
`leads_csv` load is modelled by passing the loaded lead list directly
(empty when no CSV is given); `mailboxes or []` and the
`daily_limit=50` default are the constructor defaults. -/
def Campaign.init (name : Str) (leads : List Lead) (mailboxes : List Str)
    (daily_limit : Int) (now : Nat) : Campaign :=
  { id := campaignIdBase ++ Nat.toDigits 10 now
    name := name
    mailboxes := mailboxes
    daily_limit := daily_limit
    sequence := []
    status := strDraft
    created_at := now
    leads := leads
    started_at := none }

/-- Inner validation loop body: `for lead in self.leads[:5]` with the
`break` on the first rendering that still contains an opening marker.
Returns whether the step error fires (the caller appends the single
error exactly when some sampled lead renders with a leftover marker). -/
def anyUnresolvedRender (body : Str) : List Lead → Bool
  | [] => false
  | l :: rest =>
    if hasUnresolved (personalize body l) then true
    else anyUnresolvedRender body rest

/-- Outer validation loop: `for i, email in enumerate(self.sequence)`,
threading the accumulated error list. -/
def stepLoop (leads : List Lead) (i : Nat) (errors : List Str) :
    List EmailTemplate → List Str
  | [] => errors
  | em :: rest =>
    stepLoop leads (i + 1)
      (if anyUnresolvedRender em.body (leads.take 5)
       then errors ++ [emailMsg (i + 1)] else errors) rest

/-- Campaign.validate: accumulates the three emptiness errors and then
the per-step unresolved-variable errors. -/
def Campaign.validate (c : Campaign) : List Str :=
  let errors : List Str := []
  let errors := if c.leads = [] then errors ++ [msgNoLeads] else errors
  let errors := if c.sequence = [] then errors ++ [msgNoSequence] else errors
  let errors := if c.mailboxes = [] then errors ++ [msgNoMailboxes] else errors
  stepLoop c.leads 0 errors c.sequence

/-- The dict Campaign.start returns: either
`\x7b"status": "error", "errors": [...]\x7d` or
`\x7b"status": "started", "campaign_id": id\x7d`. -/
inductive StartResult where
  | err (errors : List Str)
  | ok (campaign_id : Str)
deriving DecidableEq, Repr

/-- Campaign.start: refuses on a nonempty validation error list without
mutating anything; otherwise sets status active and (unconditionally)
`started_at = datetime.now()`, then persists.  The `_save` side effect
does not change the object, so the new object plus result is returned. -/
def Campaign.start (c : Campaign) (now : Nat) : StartResult × Campaign :=
  match c.validate with
  | [] =>
    let c2 := { c with status := strActive, started_at := some now }
    (StartResult.ok c2.id, c2)
  | e :: es => (StartResult.err (e :: es), c)

/-- Campaign.pause: sets status paused (and persists). -/
def Campaign.pause (c : Campaign) : Campaign := { c with status := strPaused }

/-- Campaign.resume: sets status active (and persists). -/
def Campaign.resume (c : Campaign) : Campaign := { c with status := strActive }

/-- The persisted campaign record written by `Campaign._save` (the JSON
document: id, name, status, created_at, started_at, leads_count,
mailboxes, daily_limit, sequence). -/
structure SavedState where
  id : Str
  name : Str
  status : Str
  created_at : Nat
  started_at : Option Nat
  leads_count : Nat
  mailboxes : List Str
  daily_limit : Int
  sequence : List EmailTemplate
deriving DecidableEq, Repr

/-- Campaign._save: serializes the full campaign state; only the lead
count (not the leads) is persisted. -/
def Campaign.save (c : Campaign) : SavedState :=
  { id := c.id
    name := c.name
    status := c.status
    created_at := c.created_at
    started_at := c.started_at
    leads_count := c.leads.length
    mailboxes := c.mailboxes
    daily_limit := c.daily_limit
    sequence := c.sequence }

/-- Campaign.load: constructs a fresh campaign (`cls(name=...)`, at the
current time, with constructor defaults), then overwrites id, status,
mailboxes, daily_limit and sequence from the record.  `leads`,
`created_at` and `started_at` are left at their constructor values. -/
def Campaign.load (s : SavedState) (now : Nat) : Campaign :=
  let c := Campaign.init s.name [] [] 50 now
  { c with
    id := s.id
    status := s.status
    mailboxes := s.mailboxes
    daily_limit := s.daily_limit
    sequence := s.sequence }

/-- Error cases of `Campaign._load_leads`: `open(csv_path)` raises
`FileNotFoundError` when the path does not resolve.  (No other error is
raised by the function; in particular no format error exists in the
code.) -/
inductive LoadError where
  | sourceNotFound
deriving DecidableEq, Repr

/-- Python dict insertion: an existing key keeps its position and gets
the new value, a new key is appended. -/
def dictInsert (d : List (Str × Str)) (k v : Str) : List (Str × Str) :=
  if d.any (fun kv => kv.1 = k) then
    d.map (fun kv => if kv.1 = k then (k, v) else kv)
  else d ++ [(k, v)]

/-- The row dict built by `csv.DictReader` from the header and one data
row (`dict(zip(fieldnames, row))`; ragged rows, which Python pads with
`None` / collects under the rest key, are outside the modelled inputs). -/
def dictOfZip (header cells : List Str) : List (Str × Str) :=
  (header.zip cells).foldl (fun d kv => dictInsert d kv.1 kv.2) []

/-- Python `row.get(k, "")`. -/
def dictGet (d : List (Str × Str)) (k : Str) : Str :=
  match d.lookup k with
  | some v => v
  | none => []

/-- One iteration of the `_load_leads` row loop: build the Lead from the
row dict, keeping the whole row as `extra`. -/
def rowToLead (header cells : List Str) : Lead :=
  let row := dictOfZip header cells
  { email := dictGet row strEmail
    first_name := dictGet row strFirstName
    company_name := dictGet row strCompanyName
    extra := row }

/-- Campaign._load_leads: `none` models an unresolvable path (the
`open` call raises `FileNotFoundError`); otherwise `csv.DictReader`
takes the first row as the header and yields one dict per remaining
row.  An empty file has no header and yields no rows — no error is
raised. -/
def load_leads (src : Option (List (List Str))) : Except LoadError (List Lead) :=
  match src with
  | none => Except.error LoadError.sourceNotFound
  | some [] => Except.ok []
  | some (header :: rows) => Except.ok (rows.map (rowToLead header))

/-- WarmupSchedule dataclass; `reply_rate` is a Python float carrying
the exact decimal constants of the schedule, modelled as a rational. -/
structure WarmupSchedule where
  day : Int
  daily_limit : Int
  reply_rate : ℚ
deriving DecidableEq, Repr

def DEFAULT_SCHEDULE : List WarmupSchedule :=
  [ { day := 1, daily_limit := 5, reply_rate := 1.0 }
  , { day := 2, daily_limit := 5, reply_rate := 1.0 }
  , { day := 3, daily_limit := 5, reply_rate := 1.0 }
  , { day := 4, daily_limit := 15, reply_rate := 0.8 }
  , { day := 5, daily_limit := 15, reply_rate := 0.8 }
  , { day := 6, daily_limit := 15, reply_rate := 0.8 }
  , { day := 7, daily_limit := 15, reply_rate := 0.8 }
  , { day := 8, daily_limit := 30, reply_rate := 0.6 }
  , { day := 14, daily_limit := 40, reply_rate := 0.4 }
  , { day := 21, daily_limit := 40, reply_rate := 0.3 } ]

/-- The `for schedule in reversed(DEFAULT_SCHEDULE)` loop with its
early `return`. -/
def findSched (day : Int) : List WarmupSchedule → Option WarmupSchedule
  | [] => none
  | s :: rest => if day ≥ s.day then some s else findSched day rest

/-- get_schedule_for_day: first entry of the reversed schedule whose
threshold is at most `day`, else the fallback `DEFAULT_SCHEDULE[0]`. -/
def get_schedule_for_day (day : Int) : WarmupSchedule :=
  match findSched day DEFAULT_SCHEDULE.reverse with
  | some s => s
  | none => DEFAULT_SCHEDULE.head (by simp [DEFAULT_SCHEDULE])

/-- The metrics sub-record of a warmup config. -/
structure WarmupMetrics where
  total_sent : Int
  total_received : Int
  inbox_rate : ℚ
  spam_rate : ℚ
deriving DecidableEq, Repr

/-- update_metrics on an existing record: accumulates the two counters,
and recomputes both ratios only when `inbox + spam > 0`. -/
def update_metrics (m : WarmupMetrics) (sent received inbox spam : Int) :
    WarmupMetrics :=
  let m1 := { m with
    total_sent := m.total_sent + sent
    total_received := m.total_received + received }
  let total := inbox + spam
  if total > 0 then
    { m1 with
      inbox_rate := (inbox : ℚ) / (total : ℚ)
      spam_rate := (spam : ℚ) / (total : ℚ) }
  else m1

/-- update_metrics including the missing-record case
(`FileNotFoundError` when no warmup config file exists). -/
def update_metrics_checked (record : Option WarmupMetrics)
    (sent received inbox spam : Int) : Except Unit WarmupMetrics :=
  match record with
  | none => Except.error ()
  | some m => Except.ok (update_metrics m sent received inbox spam)

/-! ### Template shape

A template "contains only recognized placeholders" when it is a
concatenation of literal runs and placeholder tokens whose keys all
resolve.  `Seg` is that decomposition; a well-formed literal run
contains no opening brace (every opening brace of the template belongs
to a placeholder token) and a well-formed key contains no brace at
all. -/

inductive Seg where
  | lit (s : Str)
  | ph (k : Str)
deriving DecidableEq, Repr

def Seg.flat : Seg → Str
  | .lit s => s
  | .ph k => patFor k

def flattenSegs (segs : List Seg) : Str := (segs.map Seg.flat).flatten

/-- A literal run of a well-formed template: no opening brace. -/
abbrev litOK (s : Str) : Prop := ∀ c ∈ s, c ≠ '{'

/-- A placeholder key of a well-formed template: no brace of either
kind. -/
abbrev keyOK (k : Str) : Prop := ∀ c ∈ k, c ≠ '{' ∧ c ≠ '}'

def Seg.WF : Seg → Prop
  | .lit s => litOK s
  | .ph k => keyOK k

instance decSegWF : DecidablePred Seg.WF
  | Seg.lit s => inferInstanceAs (Decidable (litOK s))
  | Seg.ph k => inferInstanceAs (Decidable (keyOK k))

/-- Effect of one `replace` pass on one segment of a well-formed
template: the matching placeholder becomes the substituted literal. -/
def substSeg (k v : Str) : Seg → Seg
  | .lit s => .lit s
  | .ph k2 => if k2 = k then .lit v else .ph k2

/-- The sequence of `replace` passes `personalize` performs, as a fold
over (key, value) pairs. -/
def applySubsts (subs : List (Str × Str)) (s : Str) : Str :=
  subs.foldl (fun acc kv => replaceL (patFor kv.1) kv.2 acc) s

def substSegsAll (subs : List (Str × Str)) (segs : List Seg) : List Seg :=
  subs.foldl (fun sgs kv => sgs.map (substSeg kv.1 kv.2)) segs

def substChain (subs : List (Str × Str)) (sg : Seg) : Seg :=
  subs.foldl (fun s kv => substSeg kv.1 kv.2 s) sg

/-- The (key, value) pairs `personalize` substitutes, in its order:
the three typed fields, then the extra dict. -/
def leadSubsts (lead : Lead) : List (Str × Str) :=
  (strFirstName, lead.first_name) :: (strCompanyName, lead.company_name) ::
    (strEmail, lead.email) :: lead.extra

/-! ### Concrete objects used in counterexamples and witnesses -/

/-- A lead whose first_name field value is the two-character string of
two opening braces. -/
def cexBraceLead : Lead :=
  { email := [], first_name := ['{', '{'], company_name := [], extra := [] }

/-- A lead whose typed first_name value is itself the placeholder text,
and whose extra dict also binds the key first_name (to value "A"). -/
def cexDupLeadA : Lead :=
  { email := [], first_name := patFor strFirstName, company_name := []
    extra := [(strFirstName, ['A'])] }

/-- Same as `cexDupLeadA` but with extra value "B". -/
def cexDupLeadB : Lead :=
  { email := [], first_name := patFor strFirstName, company_name := []
    extra := [(strFirstName, ['B'])] }

/-- A plain benign lead. -/
def okLead : Lead :=
  { email := ("e@x").toList, first_name := ("Ann").toList
    company_name := ("Acme").toList, extra := [] }

/-- A campaign that passes validation: one lead, one clean sequence
step, one mailbox. -/
def readyCampaign : Campaign :=
  { id := ("cid").toList
    name := ("n").toList
    mailboxes := [("mb@x").toList]
    daily_limit := 50
    sequence := [{ subject := ("s").toList, body := ("hello").toList }]
    status := strDraft
    created_at := 0
    leads := [okLead]
    started_at := none }

/-- A freshly constructed campaign with nothing loaded: fails all three
emptiness checks. -/
def emptyCampaign : Campaign := Campaign.init (("n").toList) [] [] 50 0

/-! ## Helper lemmas -/

theorem replaceGo_congr (p v : Str) :
    ∀ (fuel1 : Nat) (s : Str) (fuel2 : Nat), s.length ≤ fuel1 → s.length ≤ fuel2 →
      replaceGo p v fuel1 s = replaceGo p v fuel2 s := by
  intro fuel1
  induction fuel1 with
  | zero =>
    intro s fuel2 h1 _
    cases s with
    | nil => cases fuel2 <;> rfl
    | cons c rest => simp at h1
  | succ f ih =>
    intro s fuel2 h1 h2
    cases s with
    | nil => cases fuel2 <;> rfl
    | cons c rest =>
      cases fuel2 with
      | zero => simp at h2
      | succ f2 =>
        simp only [replaceGo]
        by_cases hp : p ≠ [] ∧ p.isPrefixOf (c :: rest)
        · rw [if_pos hp, if_pos hp]
          have hp1 : 0 < p.length := List.length_pos.mpr hp.1
          have hlen : ((c :: rest).drop p.length).length ≤ f := by
            simp only [List.length_drop, List.length_cons]
            simp only [List.length_cons] at h1
            omega
          have hlen2 : ((c :: rest).drop p.length).length ≤ f2 := by
            simp only [List.length_drop, List.length_cons]
            simp only [List.length_cons] at h2
            omega
          rw [ih _ _ hlen hlen2]
        · rw [if_neg hp, if_neg hp]
          have ha : rest.length ≤ f := by simpa using h1
          rw [ih rest f2 ha (by simpa using h2)]

theorem replaceL_nil (p v : Str) : replaceL p v [] = [] := rfl

theorem replaceL_cons (p v : Str) (c : Char) (s : Str) :
    replaceL p v (c :: s) =
      if p ≠ [] ∧ p.isPrefixOf (c :: s) then
        v ++ replaceL p v ((c :: s).drop p.length)
      else
        c :: replaceL p v s := by
  unfold replaceL
  simp only [List.length_cons, replaceGo]
  by_cases hp : p ≠ [] ∧ p.isPrefixOf (c :: s)
  · rw [if_pos hp, if_pos hp]
    have hp1 : 0 < p.length := List.length_pos.mpr hp.1
    congr 1
    apply replaceGo_congr
    · simp only [List.length_drop, List.length_cons]; omega
    · simp only [List.length_drop, List.length_cons]; omega
  · rw [if_neg hp, if_neg hp]

theorem start_of_validate_ne (c : Campaign) (now : Nat) (h : c.validate ≠ []) :
    c.start now = (StartResult.err c.validate, c) := by
  unfold Campaign.start
  cases hv : c.validate with
  | nil => exact absurd hv h
  | cons e es => simp

theorem start_of_validate_eq (c : Campaign) (now : Nat) (h : c.validate = []) :
    c.start now =
      (StartResult.ok c.id, { c with status := strActive, started_at := some now }) := by
  unfold Campaign.start
  cases hv : c.validate with
  | nil => simp
  | cons e es => exact absurd hv (by simp [h] at hv ⊢)

/-! ## Claim theorems -/

/-- Claim C1, counterexample: on a campaign passing validation, a first
successful start at time 1 sets started_at to 1; after a pause, a second
start also succeeds and overwrites started_at with the new time 2, so
started_at no longer equals the value set by the first successful
start. -/
theorem claim1_counterexample :
    (readyCampaign.start 1).1 = StartResult.ok readyCampaign.id ∧
    (readyCampaign.start 1).2.started_at = some 1 ∧
    (((readyCampaign.start 1).2.pause).start 2).1 = StartResult.ok readyCampaign.id ∧
    (((readyCampaign.start 1).2.pause).start 2).2.started_at = some 2 ∧
    (some 2 : Option Nat) ≠ some 1 := by
  decide

/-- Claim C1, amended: started_at is set on every successful start (to
that start's current time, overwriting any previous value), and pause
and resume never change it; a failed start leaves it unchanged as
well. -/
theorem claim1_started_at_behavior (c : Campaign) (now : Nat) :
    c.pause.started_at = c.started_at ∧
    c.resume.started_at = c.started_at ∧
    (c.validate = [] → (c.start now).2.started_at = some now) ∧
    (c.validate ≠ [] → (c.start now).2.started_at = c.started_at) := by
  refine ⟨rfl, rfl, fun h => ?_, fun h => ?_⟩
  · rw [start_of_validate_eq c now h]
  · rw [start_of_validate_ne c now h]

theorem claim1_started_at_behavior_witness :
    readyCampaign.validate = [] ∧ (readyCampaign.start 7).2.started_at = some 7 :=
  ⟨by decide, (claim1_started_at_behavior readyCampaign 7).2.2.1 (by decide)⟩

/-- Claim C2, counterexample: an empty tabular source (no header row at
all) does not fail — `csv.DictReader` simply yields no rows, so the load
returns an empty lead list and no error of any kind. -/
theorem claim2_counterexample :
    load_leads (some []) = Except.ok [] ∧
    load_leads (some []) ≠ Except.error LoadError.sourceNotFound :=
  ⟨rfl, fun h => Except.noConfusion h⟩

/-- Claim C2, amended: a path that does not resolve fails with the
not-found error; every source that resolves loads successfully — in
particular a source with a missing header row (an empty file) yields an
empty lead list, and no format error exists. -/
theorem claim2_load_error_behavior :
    load_leads none = Except.error LoadError.sourceNotFound ∧
    load_leads (some []) = Except.ok [] ∧
    ∀ rows : List (List Str), ∃ ls, load_leads (some rows) = Except.ok ls := by
  refine ⟨rfl, rfl, fun rows => ?_⟩
  cases rows with
  | nil => exact ⟨[], rfl⟩
  | cons h t => exact ⟨_, rfl⟩

/-- Claim C4: when validation returns a nonempty error list, start
returns the structured error result carrying exactly that list and
leaves the campaign object (in particular status and started_at)
unchanged. -/
theorem claim4_start_validation_failure (c : Campaign) (now : Nat)
    (h : c.validate ≠ []) :
    c.start now = (StartResult.err c.validate, c) ∧
    (c.start now).2.status = c.status ∧
    (c.start now).2.started_at = c.started_at := by
  have key := start_of_validate_ne c now h
  exact ⟨key, by rw [key], by rw [key]⟩

theorem claim4_start_validation_failure_witness :
    emptyCampaign.validate ≠ [] ∧
    emptyCampaign.start 5 = (StartResult.err emptyCampaign.validate, emptyCampaign) :=
  ⟨by decide, (claim4_start_validation_failure emptyCampaign 5 (by decide)).1⟩

/-- Claim C5: save followed by load reproduces sequence (order and all
EmailTemplate fields), status, mailboxes and daily_limit exactly, while
the reloaded campaign's leads list is empty whatever the original lead
count was. -/
theorem claim5_save_load_roundtrip (c : Campaign) (now : Nat) :
    (Campaign.load c.save now).sequence = c.sequence ∧
    (Campaign.load c.save now).status = c.status ∧
    (Campaign.load c.save now).mailboxes = c.mailboxes ∧
    (Campaign.load c.save now).daily_limit = c.daily_limit ∧
    (Campaign.load c.save now).leads = [] :=
  ⟨rfl, rfl, rfl, rfl, rfl⟩

/-- Claim C7: update_metrics accumulates the two counters, recomputes
both ratios exactly when inbox + spam > 0 and leaves them at their
prior values otherwise; in particular inbox=0, spam=0 changes neither
ratio, and inbox=3, spam=1 sets the ratios to 0.75 and 0.25. -/
theorem claim7_update_metrics_spec (m : WarmupMetrics)
    (sent received inbox spam : Int) :
    (update_metrics m sent received inbox spam).total_sent = m.total_sent + sent ∧
    (update_metrics m sent received inbox spam).total_received
      = m.total_received + received ∧
    (0 < inbox + spam →
      (update_metrics m sent received inbox spam).inbox_rate
          = (inbox : ℚ) / ((inbox : ℚ) + (spam : ℚ)) ∧
      (update_metrics m sent received inbox spam).spam_rate
          = (spam : ℚ) / ((inbox : ℚ) + (spam : ℚ))) ∧
    (¬ 0 < inbox + spam →
      (update_metrics m sent received inbox spam).inbox_rate = m.inbox_rate ∧
      (update_metrics m sent received inbox spam).spam_rate = m.spam_rate) ∧
    ((update_metrics m sent received 0 0).inbox_rate = m.inbox_rate ∧
     (update_metrics m sent received 0 0).spam_rate = m.spam_rate) ∧
    ((update_metrics m sent received 3 1).inbox_rate = (0.75 : ℚ) ∧
     (update_metrics m sent received 3 1).spam_rate = (0.25 : ℚ)) := by
  refine ⟨?_, ?_, fun h => ⟨?_, ?_⟩, fun h => ⟨?_, ?_⟩, ⟨?_, ?_⟩, ⟨?_, ?_⟩⟩
  · simp only [update_metrics]; split <;> rfl
  · simp only [update_metrics]; split <;> rfl
  · simp only [update_metrics, gt_iff_lt, if_pos h]; push_cast; ring
  · simp only [update_metrics, gt_iff_lt, if_pos h]; push_cast; ring
  · simp only [update_metrics, gt_iff_lt, if_neg h]
  · simp only [update_metrics, gt_iff_lt, if_neg h]
  · norm_num [update_metrics]
  · norm_num [update_metrics]
  · norm_num [update_metrics]
  · norm_num [update_metrics]

theorem claim7_update_metrics_spec_witness :
    (0 : Int) < 3 + 1 ∧
    (update_metrics
        { total_sent := 0, total_received := 0, inbox_rate := 1/2, spam_rate := 1/2 }
        5 7 3 1).inbox_rate = (3 : ℚ) / ((3 : ℚ) + (1 : ℚ)) :=
  ⟨by norm_num,
   ((claim7_update_metrics_spec
      { total_sent := 0, total_received := 0, inbox_rate := 1/2, spam_rate := 1/2 }
      5 7 3 1).2.2.1 (by norm_num)).1⟩

/-- Claim C10: load restores exactly id, name, status, mailboxes,
daily_limit and sequence; the persisted started_at value is written by
save but never read back (the reloaded campaign has no started_at), and
created_at is the fresh construction time; leads are likewise fresh and
empty. -/
theorem claim10_load_restores_subset (c : Campaign) (now : Nat) :
    (Campaign.load c.save now).id = c.id ∧
    (Campaign.load c.save now).name = c.name ∧
    (Campaign.load c.save now).status = c.status ∧
    (Campaign.load c.save now).mailboxes = c.mailboxes ∧
    (Campaign.load c.save now).daily_limit = c.daily_limit ∧
    (Campaign.load c.save now).sequence = c.sequence ∧
    (c.save).started_at = c.started_at ∧
    (Campaign.load c.save now).started_at = none ∧
    (Campaign.load c.save now).created_at = now ∧
    (Campaign.load c.save now).leads = [] :=
  ⟨rfl, rfl, rfl, rfl, rfl, rfl, rfl, rfl, rfl, rfl⟩

/-! ## Warmup schedule resolution -/

theorem findSched_none (d : Int) :
    ∀ l : List WarmupSchedule, findSched d l = none → ∀ e ∈ l, d < e.day := by
  intro l
  induction l with
  | nil => intro _ e he; cases he
  | cons s rest ih =>
    intro h e he
    simp only [findSched] at h
    by_cases hd : d ≥ s.day
    · rw [if_pos hd] at h; cases h
    · rw [if_neg hd] at h
      rcases List.mem_cons.mp he with rfl | hmem
      · omega
      · exact ih h e hmem

theorem findSched_some_spec (d : Int) :
    ∀ l : List WarmupSchedule, List.Pairwise (fun a b => b.day < a.day) l →
      ∀ s, findSched d l = some s →
        s ∈ l ∧ s.day ≤ d ∧ ∀ e ∈ l, e.day ≤ d → e.day ≤ s.day := by
  intro l
  induction l with
  | nil => intro _ s h; cases h
  | cons a rest ih =>
    intro hpw s h
    simp only [findSched] at h
    by_cases hd : d ≥ a.day
    · rw [if_pos hd] at h
      injection h with h
      subst h
      refine ⟨List.mem_cons_self _ _, hd, ?_⟩
      intro e he _
      rcases List.mem_cons.mp he with rfl | hmem
      · exact le_refl _
      · exact le_of_lt ((List.pairwise_cons.mp hpw).1 e hmem)
    · rw [if_neg hd] at h
      obtain ⟨hmem, hle, hmax⟩ := ih (List.pairwise_cons.mp hpw).2 s h
      refine ⟨List.mem_cons_of_mem _ hmem, hle, ?_⟩
      intro e he hed
      rcases List.mem_cons.mp he with rfl | hm
      · omega
      · exact hmax e hm hed

/-- Claim C3: for every day d at least 1, the resolved entry is the
schedule entry with the largest day threshold at most d (the
largest-to-smallest scan), with the four concrete resolutions of the
claim. -/
theorem claim3_schedule_for_day (d : Int) (hd : 1 ≤ d) :
    get_schedule_for_day d ∈ DEFAULT_SCHEDULE ∧
    (get_schedule_for_day d).day ≤ d ∧
    (∀ e ∈ DEFAULT_SCHEDULE, e.day ≤ d → e.day ≤ (get_schedule_for_day d).day) ∧
    get_schedule_for_day 1 = { day := 1, daily_limit := 5, reply_rate := 1.0 } ∧
    ((get_schedule_for_day 10).daily_limit = 30 ∧
      (get_schedule_for_day 10).reply_rate = (0.6 : ℚ)) ∧
    ((get_schedule_for_day 21).daily_limit = 40 ∧
      (get_schedule_for_day 21).reply_rate = (0.3 : ℚ)) ∧
    ((get_schedule_for_day 100).daily_limit = 40 ∧
      (get_schedule_for_day 100).reply_rate = (0.3 : ℚ)) := by
  have hpw : List.Pairwise (fun a b : WarmupSchedule => b.day < a.day)
      DEFAULT_SCHEDULE.reverse := by decide
  cases hf : findSched d DEFAULT_SCHEDULE.reverse with
  | none =>
    exfalso
    have hmem : ({ day := 1, daily_limit := 5, reply_rate := 1.0 } :
        WarmupSchedule) ∈ DEFAULT_SCHEDULE.reverse :=
      List.mem_reverse.mpr (by simp [DEFAULT_SCHEDULE])
    have h1 : d < ({ day := 1, daily_limit := 5, reply_rate := 1.0 } :
        WarmupSchedule).day :=
      findSched_none d _ hf _ hmem
    have h2 : d < 1 := h1
    omega
  | some s =>
    have hspec := findSched_some_spec d _ hpw s hf
    have hg : get_schedule_for_day d = s := by
      unfold get_schedule_for_day
      rw [hf]
    rw [hg]
    refine ⟨List.mem_reverse.mp hspec.1, hspec.2.1, ?_,
      rfl, ⟨rfl, rfl⟩, ⟨rfl, rfl⟩, ⟨rfl, rfl⟩⟩
    intro e he hed
    exact hspec.2.2 e (List.mem_reverse.mpr he) hed

theorem claim3_schedule_for_day_witness :
    (1 : Int) ≤ 10 ∧ get_schedule_for_day 10 ∈ DEFAULT_SCHEDULE :=
  ⟨by norm_num, (claim3_schedule_for_day 10 (by norm_num)).1⟩

/-! ## Validator loop characterization -/

theorem anyUnresolvedRender_eq_any (body : Str) :
    ∀ ls : List Lead,
      anyUnresolvedRender body ls
        = ls.any (fun l => hasUnresolved (personalize body l)) := by
  intro ls
  induction ls with
  | nil => rfl
  | cons l rest ih =>
    simp only [anyUnresolvedRender, List.any_cons]
    cases h : hasUnresolved (personalize body l) <;> simp [h, ih]

theorem stepLoop_eq_filterMap (leads : List Lead) :
    ∀ (seqs : List EmailTemplate) (i : Nat) (errors : List Str),
      stepLoop leads i errors seqs =
        errors ++ (List.enumFrom i seqs).filterMap (fun p =>
          if anyUnresolvedRender p.2.body (leads.take 5) then
            some (emailMsg (p.1 + 1)) else none) := by
  intro seqs
  induction seqs with
  | nil => intro i errors; simp [stepLoop]
  | cons em rest ih =>
    intro i errors
    simp only [stepLoop, List.enumFrom, List.filterMap_cons]
    rw [ih]
    cases hb : anyUnresolvedRender em.body (leads.take 5) <;>
      simp [List.append_assoc]

/-- Claim C6: validate accumulates, in order, the three emptiness
errors and then, per sequence step in order, at most one
unresolved-variable error, fired exactly when some of the first five
leads renders the step body with a leftover opening marker; with empty
leads the "No leads loaded" error is always present. -/
theorem claim6_validate_spec (c : Campaign) :
    c.validate =
      (if c.leads = [] then [msgNoLeads] else []) ++
      (if c.sequence = [] then [msgNoSequence] else []) ++
      (if c.mailboxes = [] then [msgNoMailboxes] else []) ++
      (c.sequence.enum.filterMap (fun p =>
        if (c.leads.take 5).any (fun l => hasUnresolved (personalize p.2.body l))
        then some (emailMsg (p.1 + 1)) else none)) ∧
    (c.leads = [] → msgNoLeads ∈ c.validate) := by
  have key : c.validate =
      (if c.leads = [] then [msgNoLeads] else []) ++
      (if c.sequence = [] then [msgNoSequence] else []) ++
      (if c.mailboxes = [] then [msgNoMailboxes] else []) ++
      (c.sequence.enum.filterMap (fun p =>
        if (c.leads.take 5).any (fun l => hasUnresolved (personalize p.2.body l))
        then some (emailMsg (p.1 + 1)) else none)) := by
    unfold Campaign.validate
    rw [stepLoop_eq_filterMap]
    have he : c.sequence.enum = List.enumFrom 0 c.sequence := rfl
    rw [he]
    simp only [anyUnresolvedRender_eq_any]
    by_cases h1 : c.leads = [] <;> by_cases h2 : c.sequence = [] <;>
      by_cases h3 : c.mailboxes = [] <;>
      simp [h1, h2, h3, List.append_assoc]
  refine ⟨key, fun h => ?_⟩
  rw [key, if_pos h]
  simp

theorem claim6_validate_spec_witness :
    emptyCampaign.leads = [] ∧ msgNoLeads ∈ emptyCampaign.validate :=
  ⟨rfl, (claim6_validate_spec emptyCampaign).2 rfl⟩

/-! ## Replacement over well-formed templates -/

theorem replaceL_append_litOK (q v t : Str) :
    ∀ s : Str, litOK s →
      replaceL ('{' :: q) v (s ++ t) = s ++ replaceL ('{' :: q) v t := by
  intro s
  induction s with
  | nil => intro _; simp
  | cons c s2 ih =>
    intro hs
    have hc : c ≠ '{' := hs c (List.mem_cons_self c s2)
    have hs2 : litOK s2 := fun x hx => hs x (List.mem_cons_of_mem c hx)
    show replaceL ('{' :: q) v (c :: (s2 ++ t)) = c :: (s2 ++ replaceL ('{' :: q) v t)
    rw [replaceL_cons]
    rw [if_neg]
    · rw [ih hs2]
    · intro hcond
      have hpre := List.isPrefixOf_iff_prefix.mp hcond.2
      exact hc (List.cons_prefix_cons.mp hpre).1.symm

theorem replaceL_pat_self (p v t : Str) (hp : p ≠ []) :
    replaceL p v (p ++ t) = v ++ replaceL p v t := by
  cases p with
  | nil => exact absurd rfl hp
  | cons c p2 =>
    show replaceL (c :: p2) v (c :: (p2 ++ t)) = _
    rw [replaceL_cons]
    rw [if_pos]
    · have hdrop : (c :: (p2 ++ t)).drop (c :: p2).length = t := by
        have : (c :: (p2 ++ t)) = (c :: p2) ++ t := rfl
        rw [this, List.drop_left]
      rw [hdrop]
    · exact ⟨hp, List.isPrefixOf_iff_prefix.mpr
        (by
          have : (c :: (p2 ++ t)) = (c :: p2) ++ t := rfl
          rw [this]
          exact List.prefix_append _ _)⟩

theorem keys_no_prefix :
    ∀ (k k2 : Str), keyOK k → keyOK k2 → k ≠ k2 →
      ∀ t : Str, ¬ (k ++ ['}', '}']) <+: (k2 ++ '}' :: '}' :: t) := by
  intro k
  induction k with
  | nil =>
    intro k2 _ hk2 hne t h
    cases k2 with
    | nil => exact hne rfl
    | cons c2 r2 =>
      have h1 : ('}' : Char) = c2 := (List.cons_prefix_cons.mp h).1
      exact (hk2 c2 (List.mem_cons_self c2 r2)).2 h1.symm
  | cons c r ih =>
    intro k2 hk hk2 hne t h
    cases k2 with
    | nil =>
      have h1 : c = '}' := (List.cons_prefix_cons.mp h).1
      exact (hk c (List.mem_cons_self c r)).2 h1
    | cons c2 r2 =>
      obtain ⟨hc, htail⟩ := List.cons_prefix_cons.mp h
      subst hc
      have hrne : r ≠ r2 := fun hr => hne (by rw [hr])
      exact ih r2 (fun x hx => hk x (List.mem_cons_of_mem c hx))
        (fun x hx => hk2 x (List.mem_cons_of_mem c hx)) hrne t htail

theorem pat_no_prefix_of_ne (k k2 : Str) (hk : keyOK k) (hk2 : keyOK k2)
    (hne : k ≠ k2) (u : Str) :
    ¬ (patFor k) <+: ('{' :: '{' :: (k2 ++ '}' :: '}' :: u)) := by
  intro h
  unfold patFor at h
  obtain ⟨-, h⟩ := List.cons_prefix_cons.mp h
  obtain ⟨-, h⟩ := List.cons_prefix_cons.mp h
  exact keys_no_prefix k k2 hk hk2 hne u h

theorem replaceL_ph_other (k k2 v u : Str) (hk : keyOK k) (hk2 : keyOK k2)
    (hne : k2 ≠ k) :
    replaceL (patFor k) v ('{' :: '{' :: (k2 ++ '}' :: '}' :: u))
      = '{' :: '{' :: (k2 ++ '}' :: '}' :: replaceL (patFor k) v u) := by
  rw [replaceL_cons]
  rw [if_neg]
  · rw [replaceL_cons]
    rw [if_neg]
    · have hlit : litOK (k2 ++ ['}', '}']) := by
        intro x hx
        rcases List.mem_append.mp hx with hx | hx
        · exact (hk2 x hx).1
        · have hx2 : x = '}' := by simpa using hx
          subst hx2; decide
      have hassoc : (k2 ++ ['}', '}']) ++ u = k2 ++ '}' :: '}' :: u := by
        rw [List.append_assoc]; rfl
      have hmain : replaceL (patFor k) v (k2 ++ '}' :: '}' :: u)
          = k2 ++ '}' :: '}' :: replaceL (patFor k) v u := by
        calc replaceL (patFor k) v (k2 ++ '}' :: '}' :: u)
            = replaceL (patFor k) v ((k2 ++ ['}', '}']) ++ u) := by rw [hassoc]
          _ = (k2 ++ ['}', '}']) ++ replaceL (patFor k) v u := by
                have hpat : patFor k = '{' :: ('{' :: (k ++ ['}', '}'])) := rfl
                rw [hpat]
                exact replaceL_append_litOK _ v _ _ hlit
          _ = k2 ++ '}' :: '}' :: replaceL (patFor k) v u := by
                rw [List.append_assoc]; rfl
      exact congrArg (fun l : Str => '{' :: '{' :: l) hmain
    · intro hcond
      have hpre := List.isPrefixOf_iff_prefix.mp hcond.2
      have hhead := (List.cons_prefix_cons.mp hpre)
      obtain ⟨-, htail⟩ := hhead
      cases hk2' : k2 with
      | nil =>
        rw [hk2'] at htail
        have h1 : ('{' : Char) = '}' := (List.cons_prefix_cons.mp htail).1
        cases h1
      | cons c2 r2 =>
        rw [hk2'] at htail
        have h1 : ('{' : Char) = c2 := (List.cons_prefix_cons.mp htail).1
        have := hk2 c2 (by rw [hk2']; exact List.mem_cons_self c2 r2)
        exact this.1 h1.symm
  · intro hcond
    have hpre := List.isPrefixOf_iff_prefix.mp hcond.2
    exact pat_no_prefix_of_ne k k2 hk hk2 (fun h => hne h.symm) u hpre

theorem flattenSegs_nil : flattenSegs [] = [] := rfl

theorem flattenSegs_cons (sg : Seg) (rest : List Seg) :
    flattenSegs (sg :: rest) = sg.flat ++ flattenSegs rest := by
  simp [flattenSegs]

theorem replaceL_flatten_step (k v : Str) (hk : keyOK k) :
    ∀ segs : List Seg, (∀ sg ∈ segs, Seg.WF sg) →
      replaceL (patFor k) v (flattenSegs segs)
        = flattenSegs (segs.map (substSeg k v)) := by
  intro segs
  induction segs with
  | nil => intro _; rfl
  | cons sg rest ih =>
    intro hwf
    have hsg : Seg.WF sg := hwf sg (List.mem_cons_self sg rest)
    have hrest : ∀ x ∈ rest, Seg.WF x := fun x hx => hwf x (List.mem_cons_of_mem sg hx)
    rw [flattenSegs_cons, List.map_cons, flattenSegs_cons]
    cases sg with
    | lit s =>
      have hsg' : litOK s := hsg
      have hpat : patFor k = '{' :: ('{' :: (k ++ ['}', '}'])) := rfl
      show replaceL (patFor k) v (s ++ flattenSegs rest)
          = s ++ flattenSegs (List.map (substSeg k v) rest)
      rw [hpat, replaceL_append_litOK _ v _ _ hsg', ← hpat, ih hrest]
    | ph k2 =>
      by_cases hkk : k2 = k
      · subst hkk
        show replaceL (patFor k2) v (patFor k2 ++ flattenSegs rest) = _
        rw [replaceL_pat_self _ v _ (by simp [patFor]), ih hrest]
        simp [substSeg, Seg.flat]
      · have hflat : (Seg.ph k2).flat ++ flattenSegs rest
            = '{' :: '{' :: (k2 ++ '}' :: '}' :: flattenSegs rest) := by
          show patFor k2 ++ flattenSegs rest = _
          unfold patFor
          simp [List.append_assoc]
        rw [hflat, replaceL_ph_other k k2 v _ hk hsg hkk, ih hrest]
        have : (substSeg k v (Seg.ph k2)).flat = patFor k2 := by
          simp [substSeg, hkk, Seg.flat]
        rw [this]
        unfold patFor
        simp [List.append_assoc]

theorem substSeg_WF (k v : Str) (hv : litOK v) :
    ∀ sg : Seg, Seg.WF sg → Seg.WF (substSeg k v sg) := by
  intro sg hsg
  cases sg with
  | lit s => exact hsg
  | ph k2 =>
    by_cases hkk : k2 = k
    · simpa [substSeg, hkk] using hv
    · simpa [substSeg, hkk] using hsg

theorem applySubsts_flatten :
    ∀ (subs : List (Str × Str)) (segs : List Seg),
      (∀ kv ∈ subs, keyOK kv.1 ∧ litOK kv.2) →
      (∀ sg ∈ segs, Seg.WF sg) →
      applySubsts subs (flattenSegs segs) = flattenSegs (substSegsAll subs segs) := by
  intro subs
  induction subs with
  | nil => intro segs _ _; rfl
  | cons kv subs2 ih =>
    intro segs hsubs hwf
    have hhead := hsubs kv (List.mem_cons_self kv subs2)
    have htail : ∀ x ∈ subs2, keyOK x.1 ∧ litOK x.2 :=
      fun x hx => hsubs x (List.mem_cons_of_mem kv hx)
    show applySubsts subs2 (replaceL (patFor kv.1) kv.2 (flattenSegs segs))
        = flattenSegs (substSegsAll subs2 (segs.map (substSeg kv.1 kv.2)))
    rw [replaceL_flatten_step kv.1 kv.2 hhead.1 segs hwf]
    exact ih _ htail (by
      intro sg hsg
      rcases List.mem_map.mp hsg with ⟨sg0, hsg0, rfl⟩
      exact substSeg_WF kv.1 kv.2 hhead.2 sg0 (hwf sg0 hsg0))

theorem substSegsAll_eq_map :
    ∀ (subs : List (Str × Str)) (segs : List Seg),
      substSegsAll subs segs = segs.map (substChain subs) := by
  intro subs
  induction subs with
  | nil => intro segs; exact (List.map_id segs).symm
  | cons kv subs2 ih =>
    intro segs
    show substSegsAll subs2 (segs.map (substSeg kv.1 kv.2))
        = segs.map (substChain (kv :: subs2))
    rw [ih, List.map_map]
    rfl

theorem substChain_append (l1 l2 : List (Str × Str)) (sg : Seg) :
    substChain (l1 ++ l2) sg = substChain l2 (substChain l1 sg) :=
  List.foldl_append _ _ _ _

theorem substChain_lit (s : Str) :
    ∀ subs : List (Str × Str), substChain subs (Seg.lit s) = Seg.lit s := by
  intro subs
  induction subs with
  | nil => rfl
  | cons kv subs2 ih =>
    show substChain subs2 (substSeg kv.1 kv.2 (Seg.lit s)) = Seg.lit s
    exact ih

theorem substChain_cons (kv : Str × Str) (subs : List (Str × Str)) (sg : Seg) :
    substChain (kv :: subs) sg = substChain subs (substSeg kv.1 kv.2 sg) := rfl

theorem substChain_ph_hit :
    ∀ (subs : List (Str × Str)) (k : Str),
      (∀ kv ∈ subs, litOK kv.2) → (∃ kv ∈ subs, kv.1 = k) →
      ∃ w, substChain subs (Seg.ph k) = Seg.lit w ∧ litOK w := by
  intro subs
  induction subs with
  | nil =>
    intro k _ hex
    obtain ⟨kv, hkv, -⟩ := hex
    cases hkv
  | cons kv subs2 ih =>
    intro k hvals hex
    rw [substChain_cons]
    by_cases hk : k = kv.1
    · have : substSeg kv.1 kv.2 (Seg.ph k) = Seg.lit kv.2 := by
        simp [substSeg, hk]
      rw [this, substChain_lit]
      exact ⟨kv.2, rfl, hvals kv (List.mem_cons_self kv subs2)⟩
    · have : substSeg kv.1 kv.2 (Seg.ph k) = Seg.ph k := by
        simp [substSeg, hk]
      rw [this]
      apply ih k (fun x hx => hvals x (List.mem_cons_of_mem kv hx))
      obtain ⟨kv2, hkv2, hkeq⟩ := hex
      rcases List.mem_cons.mp hkv2 with rfl | hm
      · exact absurd hkeq.symm hk
      · exact ⟨kv2, hm, hkeq⟩

theorem substChain_ph_miss :
    ∀ (subs : List (Str × Str)) (k k2 : Str),
      substChain subs (Seg.ph k) = Seg.ph k2 →
      k2 = k ∧ ∀ kv ∈ subs, kv.1 ≠ k := by
  intro subs
  induction subs with
  | nil =>
    intro k k2 h
    refine ⟨?_, by intro kv hkv; cases hkv⟩
    injection h with h
    exact h.symm
  | cons kv subs2 ih =>
    intro k k2 h
    rw [substChain_cons] at h
    by_cases hk : k = kv.1
    · rw [show substSeg kv.1 kv.2 (Seg.ph k) = Seg.lit kv.2 from by
        simp [substSeg, hk], substChain_lit] at h
      cases h
    · rw [show substSeg kv.1 kv.2 (Seg.ph k) = Seg.ph k from by
        simp [substSeg, hk]] at h
      obtain ⟨hk2, hall⟩ := ih k k2 h
      refine ⟨hk2, ?_⟩
      intro x hx
      rcases List.mem_cons.mp hx with rfl | hm
      · exact fun hxk => hk hxk.symm
      · exact hall x hm

theorem flattenSegs_litOK :
    ∀ segs : List Seg, (∀ sg ∈ segs, ∃ w, sg = Seg.lit w ∧ litOK w) →
      litOK (flattenSegs segs) := by
  intro segs hall c hc
  unfold flattenSegs at hc
  obtain ⟨l, hl, hcl⟩ := List.mem_flatten.mp hc
  obtain ⟨sg, hsg, rfl⟩ := List.mem_map.mp hl
  obtain ⟨w, rfl, hw⟩ := hall sg hsg
  exact hw c hcl

theorem hasUnresolved_false_of_litOK (s : Str) (hs : litOK s) :
    hasUnresolved s = false := by
  unfold hasUnresolved
  rw [decide_eq_false_iff_not]
  intro hinf
  exact hs '{' (hinf.subset (by simp)) rfl

theorem personalize_eq_applySubsts (t : Str) (lead : Lead) :
    personalize t lead = applySubsts (leadSubsts lead) t := rfl

/-- Claim C8, counterexample: the template consisting of exactly one
recognized placeholder (first_name), rendered against a lead whose
first_name field value is the two-character string of two opening
braces, still contains the opening marker.  The claim quantifies over
every Lead, so the universally quantified statement fails. -/
theorem claim8_counterexample :
    flattenSegs [Seg.ph strFirstName] = patFor strFirstName ∧
    (∀ sg ∈ [Seg.ph strFirstName], Seg.WF sg) ∧
    hasUnresolved (personalize (flattenSegs [Seg.ph strFirstName]) cexBraceLead)
      = true := by
  refine ⟨by simp [flattenSegs, Seg.flat], by decide, by decide⟩

/-- Claim C8, amended: for every template that is a concatenation of
brace-free literal runs and placeholders whose keys are all recognized
(typed-field names or extra keys), and every lead whose field values
contain no opening brace (and whose extra keys are brace-free), the
rendering contains no opening marker. -/
theorem claim8_render_no_marker (segs : List Seg) (lead : Lead)
    (hwf : ∀ sg ∈ segs, Seg.WF sg)
    (hrec : ∀ k, Seg.ph k ∈ segs →
      k = strFirstName ∨ k = strCompanyName ∨ k = strEmail ∨
        ∃ kv ∈ lead.extra, kv.1 = k)
    (hfn : litOK lead.first_name) (hcn : litOK lead.company_name)
    (hem : litOK lead.email)
    (hex : ∀ kv ∈ lead.extra, keyOK kv.1 ∧ litOK kv.2) :
    hasUnresolved (personalize (flattenSegs segs) lead) = false := by
  have hunf : leadSubsts lead
      = (strFirstName, lead.first_name) :: (strCompanyName, lead.company_name)
        :: (strEmail, lead.email) :: lead.extra := rfl
  have hsubs : ∀ kv ∈ leadSubsts lead, keyOK kv.1 ∧ litOK kv.2 := by
    intro kv hkv
    rw [hunf] at hkv
    rcases List.mem_cons.mp hkv with rfl | hkv
    · exact ⟨(by decide : keyOK strFirstName), hfn⟩
    rcases List.mem_cons.mp hkv with rfl | hkv
    · exact ⟨(by decide : keyOK strCompanyName), hcn⟩
    rcases List.mem_cons.mp hkv with rfl | hkv
    · exact ⟨(by decide : keyOK strEmail), hem⟩
    exact hex kv hkv
  rw [personalize_eq_applySubsts, applySubsts_flatten _ _ hsubs hwf,
    substSegsAll_eq_map]
  apply hasUnresolved_false_of_litOK
  apply flattenSegs_litOK
  intro sg hsg
  obtain ⟨sg0, hsg0, rfl⟩ := List.mem_map.mp hsg
  cases sg0 with
  | lit s =>
    have hs : litOK s := hwf _ hsg0
    exact ⟨s, by rw [substChain_lit], hs⟩
  | ph k =>
    have hvals : ∀ kv ∈ leadSubsts lead, litOK kv.2 :=
      fun kv h => (hsubs kv h).2
    have hhit : ∃ kv ∈ leadSubsts lead, kv.1 = k := by
      rcases hrec k hsg0 with h | h | h | ⟨kv, hkv, hkv1⟩
      · exact ⟨(strFirstName, lead.first_name),
          by rw [hunf]; exact List.mem_cons_self _ _, h.symm⟩
      · exact ⟨(strCompanyName, lead.company_name),
          by rw [hunf]
             exact List.mem_cons_of_mem _ (List.mem_cons_self _ _), h.symm⟩
      · exact ⟨(strEmail, lead.email),
          by rw [hunf]
             exact List.mem_cons_of_mem _
               (List.mem_cons_of_mem _ (List.mem_cons_self _ _)), h.symm⟩
      · exact ⟨kv,
          by rw [hunf]
             exact List.mem_cons_of_mem _ (List.mem_cons_of_mem _
               (List.mem_cons_of_mem _ hkv)), hkv1⟩
    exact substChain_ph_hit _ k hvals hhit

theorem claim8_render_no_marker_witness :
    litOK (("Ann").toList) ∧
    hasUnresolved (personalize
      (flattenSegs [Seg.lit (("Hi ").toList), Seg.ph strFirstName]) okLead)
      = false :=
  ⟨by decide,
   claim8_render_no_marker [Seg.lit (("Hi ").toList), Seg.ph strFirstName] okLead
     (by decide)
     (by
       intro k hk
       simp only [List.mem_cons, List.not_mem_nil, or_false] at hk
       rcases hk with h | h
       · cases h
       · left
         injection h)
     (by decide) (by decide) (by decide) (by decide)⟩

/-- Claim C9, counterexample: two leads that agree on every typed field
and on the extra keys, and differ only in the extra value bound to the
typed-field name first_name, render the same single-placeholder template
to different outputs — the conflicting extra value does have an effect
(the typed value, itself placeholder-shaped, reintroduces the
placeholder, which the extra pass then substitutes). -/
theorem claim9_counterexample :
    cexDupLeadA.email = cexDupLeadB.email ∧
    cexDupLeadA.first_name = cexDupLeadB.first_name ∧
    cexDupLeadA.company_name = cexDupLeadB.company_name ∧
    cexDupLeadA.extra.map Prod.fst = [strFirstName] ∧
    cexDupLeadB.extra.map Prod.fst = [strFirstName] ∧
    personalize (patFor strFirstName) cexDupLeadA
      ≠ personalize (patFor strFirstName) cexDupLeadB := by
  decide

/-- Claim C9, amended: over well-formed templates (brace-free literal
runs and brace-free placeholder keys) and brace-free substituted
values, the typed field wins: an extra entry whose key equals a
typed-field name never affects the output, and removing it changes
nothing — the typed pass has already consumed every occurrence of that
placeholder. -/
theorem claim9_typed_field_wins (segs : List Seg) (fn cn em w : Str)
    (e1 e2 : List (Str × Str)) (k0 : Str)
    (hk0 : k0 = strFirstName ∨ k0 = strCompanyName ∨ k0 = strEmail)
    (hwf : ∀ sg ∈ segs, Seg.WF sg)
    (hfn : litOK fn) (hcn : litOK cn) (hem : litOK em) (hw : litOK w)
    (hex : ∀ kv ∈ e1 ++ e2, keyOK kv.1 ∧ litOK kv.2) :
    personalize (flattenSegs segs)
      { email := em, first_name := fn, company_name := cn
        extra := e1 ++ (k0, w) :: e2 }
    = personalize (flattenSegs segs)
      { email := em, first_name := fn, company_name := cn
        extra := e1 ++ e2 } := by
  have hk0key : keyOK k0 := by
    rcases hk0 with rfl | rfl | rfl <;> decide
  have hexA : ∀ kv ∈ e1 ++ (k0, w) :: e2, keyOK kv.1 ∧ litOK kv.2 := by
    intro kv hkv
    rcases List.mem_append.mp hkv with h | h
    · exact hex kv (List.mem_append_left _ h)
    rcases List.mem_cons.mp h with rfl | h
    · exact ⟨hk0key, hw⟩
    · exact hex kv (List.mem_append_right _ h)
  have hsubsA : ∀ kv ∈ leadSubsts
      { email := em, first_name := fn, company_name := cn
        extra := e1 ++ (k0, w) :: e2 }, keyOK kv.1 ∧ litOK kv.2 := by
    intro kv hkv
    rcases List.mem_cons.mp hkv with rfl | hkv
    · exact ⟨(by decide : keyOK strFirstName), hfn⟩
    rcases List.mem_cons.mp hkv with rfl | hkv
    · exact ⟨(by decide : keyOK strCompanyName), hcn⟩
    rcases List.mem_cons.mp hkv with rfl | hkv
    · exact ⟨(by decide : keyOK strEmail), hem⟩
    exact hexA kv hkv
  have hsubsB : ∀ kv ∈ leadSubsts
      { email := em, first_name := fn, company_name := cn
        extra := e1 ++ e2 }, keyOK kv.1 ∧ litOK kv.2 := by
    intro kv hkv
    rcases List.mem_cons.mp hkv with rfl | hkv
    · exact ⟨(by decide : keyOK strFirstName), hfn⟩
    rcases List.mem_cons.mp hkv with rfl | hkv
    · exact ⟨(by decide : keyOK strCompanyName), hcn⟩
    rcases List.mem_cons.mp hkv with rfl | hkv
    · exact ⟨(by decide : keyOK strEmail), hem⟩
    exact hex kv hkv
  rw [personalize_eq_applySubsts, personalize_eq_applySubsts,
    applySubsts_flatten _ _ hsubsA hwf, applySubsts_flatten _ _ hsubsB hwf,
    substSegsAll_eq_map, substSegsAll_eq_map]
  congr 1
  apply List.map_congr_left
  intro sg0 hsg0
  cases sg0 with
  | lit s => rw [substChain_lit, substChain_lit]
  | ph k =>
    have hA : leadSubsts
        { email := em, first_name := fn, company_name := cn
          extra := e1 ++ (k0, w) :: e2 }
        = ((strFirstName, fn) :: (strCompanyName, cn) :: (strEmail, em) :: e1)
          ++ ((k0, w) :: e2) := rfl
    have hB : leadSubsts
        { email := em, first_name := fn, company_name := cn
          extra := e1 ++ e2 }
        = ((strFirstName, fn) :: (strCompanyName, cn) :: (strEmail, em) :: e1)
          ++ e2 := rfl
    rw [hA, hB, substChain_append, substChain_append]
    cases hmid : substChain
        ((strFirstName, fn) :: (strCompanyName, cn) :: (strEmail, em) :: e1)
        (Seg.ph k) with
    | lit s => rw [substChain_cons]; rfl
    | ph k2 =>
      obtain ⟨hk2, hmiss⟩ := substChain_ph_miss _ k k2 hmid
      have hk0ne : k0 ≠ k := by
        rcases hk0 with rfl | rfl | rfl
        · exact hmiss (strFirstName, fn) (List.mem_cons_self _ _)
        · exact hmiss (strCompanyName, cn)
            (List.mem_cons_of_mem _ (List.mem_cons_self _ _))
        · exact hmiss (strEmail, em)
            (List.mem_cons_of_mem _ (List.mem_cons_of_mem _
              (List.mem_cons_self _ _)))
      rw [substChain_cons]
      have hkeep : substSeg k0 w (Seg.ph k2) = Seg.ph k2 := by
        have hne : k2 ≠ k0 := by
          rw [hk2]
          exact fun hh => hk0ne hh.symm
        simp [substSeg, hne]
      rw [hkeep]

theorem claim9_typed_field_wins_witness :
    litOK (("ZZ").toList) ∧
    personalize (flattenSegs [Seg.ph strFirstName])
      { email := [], first_name := ("Ann").toList, company_name := []
        extra := [] ++ (strFirstName, ("ZZ").toList) :: [] }
    = personalize (flattenSegs [Seg.ph strFirstName])
      { email := [], first_name := ("Ann").toList, company_name := []
        extra := [] ++ [] } :=
  ⟨by decide,
   claim9_typed_field_wins [Seg.ph strFirstName] (("Ann").toList) [] []
     (("ZZ").toList) [] [] strFirstName (Or.inl rfl) (by decide)
     (by decide) (by decide) (by decide) (by decide) (by decide)⟩
